import Mathlib

/-!
Shallow embedding of the Conventional Commit Analysis Engine of the
mcp-conventional-commit repository: the diff parser (parseGitDiff), the
type scorer (scoreTypes), the correlation engine (findRelatedRecentCommits)
and the tone validator (validateTone), together with their string helpers.

Strings are modelled over their character lists (String.data); JavaScript
string primitives (split, includes, startsWith, trim, toLowerCase, slice)
are reimplemented as executable functions on List Char. Numeric scores,
which are JavaScript numbers, are modelled as rationals: every score in
the engine is a sum of hundredth-sized penalties or small integers, far
from any binary-rounding boundary, so the rational model is exact.
Char.toLower is ASCII, matching the ASCII-only data these heuristics see.
-/

/-- JavaScript whitespace for trim and the regex class backslash-s
(ASCII part, which is all the engine ever meets). -/
def isJsWs (c : Char) : Bool :=
  c = ' ' || c = '\t' || c = '\n' || c = '\r' || c = '\x0b' || c = '\x0c'

/-- Characters kept by the tokenizer character class a-z0-9/_- . -/
def isTokenChar (c : Char) : Bool :=
  ('a' ≤ c && c ≤ 'z') || ('0' ≤ c && c ≤ '9') || c = '/' || c = '_' || c = '-'

/-- Regex word character, the backslash-w class A-Za-z0-9_. -/
def isWordChar (c : Char) : Bool :=
  ('a' ≤ c && c ≤ 'z') || ('A' ≤ c && c ≤ 'Z') || ('0' ≤ c && c ≤ '9') || c = '_'

/-- ASCII letter, the a-z class under the regex i flag. -/
def isAsciiAlpha (c : Char) : Bool :=
  ('a' ≤ c && c ≤ 'z') || ('A' ≤ c && c ≤ 'Z')

/-- Split a character list at every occurrence of a separator character,
like the JavaScript String.split with a one-character separator: the empty
input yields one empty piece. -/
def splitOnCharL (sep : Char) : List Char → List (List Char)
  | [] => [[]]
  | c :: tl =>
    if c = sep then [] :: splitOnCharL sep tl
    else
      match splitOnCharL sep tl with
      | h :: t => (c :: h) :: t
      | [] => [[c]]

/-- The lines of a diff text, as JavaScript diffText.split of a newline. -/
def splitLines (cs : List Char) : List (List Char) := splitOnCharL '\n' cs

/-- JavaScript String.prototype.trim on a character list. -/
def jsTrimL (cs : List Char) : List Char :=
  ((cs.dropWhile isJsWs).reverse.dropWhile isJsWs).reverse

/-- JavaScript String.prototype.trim. -/
def jsTrim (s : String) : String := String.mk (jsTrimL s.data)

/-- JavaScript toLowerCase on a character list (ASCII case fold). -/
def toLowerL (cs : List Char) : List Char := cs.map Char.toLower

/-- JavaScript toLowerCase. -/
def jsLower (s : String) : String := String.mk (toLowerL s.data)

/-- Containment of one character list in another as a contiguous run. -/
def isInfixL (pat cs : List Char) : Bool := cs.tails.any (fun t => pat.isPrefixOf t)

/-- JavaScript String.prototype.includes: substring containment. -/
def jsIncludes (s pat : String) : Bool := isInfixL pat.data s.data

/-- JavaScript Set insertion-order deduplication: keep the first
occurrence of every element. -/
def firstDedup {α : Type} [DecidableEq α] : List α → List α
  | [] => []
  | a :: tl => a :: (firstDedup tl).filter (fun b => b ≠ a)

theorem mem_firstDedup {α : Type} [DecidableEq α] {a : α} :
    ∀ {l : List α}, a ∈ firstDedup l ↔ a ∈ l := by
  intro l
  induction l with
  | nil => simp [firstDedup]
  | cons x tl ih =>
    simp only [firstDedup, List.mem_cons, List.mem_filter]
    constructor
    · rintro (rfl | ⟨h, _⟩)
      · exact Or.inl rfl
      · exact Or.inr (ih.mp h)
    · rintro (rfl | h)
      · exact Or.inl rfl
      · by_cases hax : a = x
        · exact Or.inl hax
        · exact Or.inr ⟨ih.mpr h, by simpa using hax⟩

theorem filter_firstDedup {α : Type} [DecidableEq α] (p : α → Bool) :
    ∀ (l : List α), firstDedup (l.filter p) = (firstDedup l).filter p := by
  intro l
  induction l with
  | nil => rfl
  | cons a tl ih =>
    by_cases hpa : p a = true
    · simp only [firstDedup, List.filter_cons, hpa, if_true, ih]
      rw [List.filter_filter, List.filter_filter]
      congr 1
      apply List.filter_congr
      intro b _
      rw [Bool.and_comm]
    · simp only [firstDedup, List.filter_cons, hpa]
      simp only [Bool.false_eq_true, if_false]
      rw [List.filter_filter, ih]
      apply (List.filter_congr _).symm
      intro b _
      by_cases hba : b = a
      · subst hba
        simp [hpa]
      · simp [hba]

theorem firstDedup_idem {α : Type} [DecidableEq α] :
    ∀ (l : List α), firstDedup (firstDedup l) = firstDedup l := by
  intro l
  induction l with
  | nil => rfl
  | cons x tl ih =>
    simp only [firstDedup]
    congr 1
    rw [filter_firstDedup, ih, List.filter_filter]
    apply List.filter_congr
    intro b _
    rw [Bool.and_self]

/-- Join a list of strings with a single-space separator, the JavaScript
Array.prototype.join with a space. -/
def jsJoinSpace : List String → String
  | [] => ""
  | [s] => s
  | s :: rest => s ++ " " ++ jsJoinSpace rest

/-- Helper for collapseWs: the flag records whether the previous
character belonged to a whitespace run already emitted as one space. -/
def collapseWsAux : Bool → List Char → List Char
  | _, [] => []
  | inWs, c :: tl =>
    if isJsWs c then
      if inWs then collapseWsAux true tl else ' ' :: collapseWsAux true tl
    else c :: collapseWsAux false tl

/-- Collapse every whitespace run into one space: the JavaScript
replace of global backslash-s-plus with a single space. -/
def collapseWs (cs : List Char) : List Char := collapseWsAux false cs

/-- Drop a trailing run of period, exclamation and question marks: the
JavaScript replace of the anchored class with the empty string. -/
def stripTrailingPunct (cs : List Char) : List Char :=
  (cs.reverse.dropWhile (fun c => c = '.' || c = '!' || c = '?')).reverse

/-- Case-insensitive global replace of a fixed lowercase pattern, the
JavaScript String.replace with a global case-insensitive regex built from
the pattern: scans left to right, never rescans replacement text. -/
def replaceCIAux (pat rep : List Char) : Nat → List Char → List Char
  | 0, cs => cs
  | _ + 1, [] => []
  | fuel + 1, c :: tl =>
    if pat ≠ [] && pat.isPrefixOf (toLowerL (c :: tl)) then
      rep ++ replaceCIAux pat rep fuel (tl.drop (pat.length - 1))
    else c :: replaceCIAux pat rep fuel tl

/-- Entry point for replaceCI: the fuel equals the input length and every
step consumes at least one input character, so it never runs out. -/
def replaceCI (pat rep cs : List Char) : List Char :=
  replaceCIAux pat rep cs.length cs

/-- Lower-case only the first character, as the source helper
lowerCaseFirst does. -/
def lowerCaseFirst (s : String) : String :=
  match s.data with
  | [] => s
  | c :: tl => String.mk (Char.toLower c :: tl)

/-- Keyword table for feature signals, from the source constant
FEATURE_KEYWORDS (note the deliberate trailing spaces). -/
def FEATURE_KEYWORDS : List String :=
  ["add ", "adds ", "added ", "new ", "create", "introduce", "support",
   "enable", "implement", "expose"]

/-- Keyword table for fix signals, from the source constant FIX_KEYWORDS. -/
def FIX_KEYWORDS : List String :=
  ["fix", "bug", "error", "exception", "prevent", "handle", "resolve",
   "correct", "fallback", "guard", "null", "undefined"]

/-- Keyword table for refactor signals, from REFACTOR_KEYWORDS. -/
def REFACTOR_KEYWORDS : List String :=
  ["refactor", "cleanup", "simplify", "reorganize", "extract", "rename",
   "move ", "split "]

/-- Keyword table for performance signals, from PERF_KEYWORDS. -/
def PERF_KEYWORDS : List String :=
  ["optimiz", "performance", "faster", "latency", "throughput", "memo",
   "cache", "benchmark"]

/-- Keyword table for style signals, from STYLE_KEYWORDS. -/
def STYLE_KEYWORDS : List String := ["format", "lint", "prettier", "eslint-disable"]

/-- Documentation extensions, from the source set DOC_EXTENSIONS. -/
def DOC_EXTENSIONS : List String := [".md", ".mdx", ".rst", ".adoc", ".txt"]

/-- Path fragments that mark test files, from TEST_HINTS. -/
def TEST_HINTS : List String := ["test", "spec", "__tests__", "__mocks__", "fixtures"]

/-- Path fragments that mark configuration files, from CONFIG_HINTS. -/
def CONFIG_HINTS : List String :=
  [".github/", ".gitlab/", ".vscode/", ".husky/", "dockerfile",
   "docker-compose", "tsconfig", "eslint", "prettier", "package.json",
   "package-lock.json", "pnpm-lock.yaml", "yarn.lock"]

/-- Vague wording table, from VAGUE_SUBJECT_HINTS. -/
def VAGUE_SUBJECT_HINTS : List String :=
  ["stuff", "things", "misc", "various", "small changes", "fix issue",
   "update files", "changes"]

/-- Tokenizer stop words, from TOKEN_STOPWORDS. -/
def TOKEN_STOPWORDS : List String :=
  ["the", "and", "for", "with", "from", "into", "that", "this", "then",
   "than", "when", "where", "after", "before", "while", "about", "just",
   "only", "change", "changes", "update", "fix", "add"]

/-- The extension of a file name: the lower-cased slice from the last
period, or the empty string when no period occurs (source extensionOf). -/
def extensionOf (file : String) : String :=
  let cs := file.data
  if cs.contains '.' then
    String.mk (toLowerL ('.' :: (cs.reverse.takeWhile (fun c => c ≠ '.')).reverse))
  else ""

/-- A file counts as documentation when its lower-cased path sits under
docs/ or carries a documentation extension (source isDoc). -/
def isDoc (file : String) : Bool :=
  let lc := jsLower file
  "docs/".data.isPrefixOf lc.data || DOC_EXTENSIONS.contains (extensionOf lc)

/-- A file counts as a test file when its lower-cased path contains one
of the test hints (source isTest). -/
def isTest (file : String) : Bool :=
  let lc := jsLower file
  TEST_HINTS.any (fun h => jsIncludes lc h)

/-- A file counts as configuration when its lower-cased path contains one
of the configuration hints (source isConfig). -/
def isConfig (file : String) : Bool :=
  let lc := jsLower file
  CONFIG_HINTS.any (fun h => jsIncludes lc h)

/-- A file counts as source code when it is neither documentation nor
configuration and has a recognized non-binary extension (source isCode). -/
def isCode (file : String) : Bool :=
  if isDoc file || isConfig file then false
  else
    let ext := extensionOf file
    ext ≠ "" && !([".png", ".jpg", ".jpeg", ".gif", ".svg", ".ico", ".pdf", ".lock"].contains ext)

/-- One hit per keyword list entry contained in the line (source
countKeywordHits). -/
def countKeywordHits (line : List Char) (keywords : List String) : Nat :=
  keywords.countP (fun kw => isInfixL kw.data line)

/-- A style-only change line: blank once trimmed, made solely of
punctuation and bracket characters, or starting (after leading
whitespace) with a comment marker (source isStyleOnlyChange). -/
def isStyleOnlyChange (line : List Char) : Bool :=
  let trimmed := jsTrimL line
  if trimmed.isEmpty then true
  else if trimmed.all (fun c =>
      c = '\x7b' || c = '\x7d' || c = '(' || c = ')' || c = '[' || c = ']' ||
      c = ';' || c = ',' || c = '.') then true
  else
    let rest := line.dropWhile isJsWs
    "//".data.isPrefixOf rest || "*".data.isPrefixOf rest || "*/".data.isPrefixOf rest

/-- Mutable state of the parse loop in parseGitDiff, before the shape
flags are derived from the file list. -/
structure ParseAcc where
  files : List String
  additions : Nat
  deletions : Nat
  hasBreakingHint : Bool
  addedFiles : Nat
  deletedFiles : Nat
  renamedFiles : Nat
  featureSignals : Nat
  fixSignals : Nat
  refactorSignals : Nat
  perfSignals : Nat
  styleSignals : Nat
deriving DecidableEq

/-- The all-zero initial parse state. -/
def initAcc : ParseAcc :=
  { files := [], additions := 0, deletions := 0, hasBreakingHint := false,
    addedFiles := 0, deletedFiles := 0, renamedFiles := 0,
    featureSignals := 0, fixSignals := 0, refactorSignals := 0,
    perfSignals := 0, styleSignals := 0 }

/-- Line starts with the diff file header marker. -/
def diffGitCond (l : List Char) : Bool := "diff --git ".data.isPrefixOf l

/-- Line starts with the new-file mode marker. -/
def newFileCond (l : List Char) : Bool := "new file mode ".data.isPrefixOf l

/-- Line starts with the deleted-file mode marker. -/
def deletedFileCond (l : List Char) : Bool := "deleted file mode ".data.isPrefixOf l

/-- Line starts with the rename-from marker. -/
def renameFromCond (l : List Char) : Bool := "rename from ".data.isPrefixOf l

/-- Line starts with the rename-to marker. -/
def renameToCond (l : List Char) : Bool := "rename to ".data.isPrefixOf l

/-- Added content line: starts with plus but not the plus-plus-plus file
marker. -/
def plusCond (l : List Char) : Bool :=
  "+".data.isPrefixOf l && !("+++".data.isPrefixOf l)

/-- Removed content line: starts with minus but not the minus-minus-minus
file marker. -/
def minusCond (l : List Char) : Bool :=
  "-".data.isPrefixOf l && !("---".data.isPrefixOf l)

/-- Split at every occurrence of the three-character separator
space-b-slash, as the b-side match of the diff header regex needs. -/
def splitOnB : List Char → List (List Char)
  | ' ' :: 'b' :: '/' :: rest => [] :: splitOnB rest
  | c :: tl =>
    match splitOnB tl with
    | h :: t => (c :: h) :: t
    | [] => [[c]]
  | [] => [[]]

/-- Rejoin split pieces with the space-b-slash separator. -/
def joinSplitB : List (List Char) → List Char
  | [] => []
  | [p] => p
  | p :: rest => p ++ " b/".data ++ joinSplitB rest

/-- A split position is valid for the greedy diff header regex when both
capture groups it induces are nonempty. -/
def validSplitB (pieces : List (List Char)) (k : Nat) : Bool :=
  decide (1 ≤ k) && decide (k + 1 ≤ pieces.length) &&
  (decide (2 ≤ k) || !(pieces.headD []).isEmpty) &&
  (decide (k + 2 ≤ pieces.length) || !(pieces.getLastD []).isEmpty)

/-- The b-side path captured by the anchored header regex
diff space dash-dash-git space a-slash group space b-slash group: the text
after a-slash splits at the space-b-slash occurrence the greedy first
group selects, which is the rightmost one leaving both groups nonempty. -/
def diffGitTarget (l : List Char) : Option String :=
  if ("diff --git a/".data).isPrefixOf l then
    let rest := l.drop 13
    let pieces := splitOnB rest
    match ((List.range pieces.length).reverse.filter (validSplitB pieces)).head? with
    | some k => some (String.mk (joinSplitB (pieces.drop k)))
    | none => none
  else none

/-- One step of the parse loop of parseGitDiff: dispatch on the line
markers in source order, falling through to the added and removed content
line branches. -/
def parseLine (acc : ParseAcc) (l : List Char) : ParseAcc :=
  if diffGitCond l then
    match diffGitTarget l with
    | some f => { acc with files := acc.files ++ [f] }
    | none => acc
  else if newFileCond l then { acc with addedFiles := acc.addedFiles + 1 }
  else if deletedFileCond l then { acc with deletedFiles := acc.deletedFiles + 1 }
  else if renameFromCond l || renameToCond l then
    { acc with renamedFiles := acc.renamedFiles + 1 }
  else if plusCond l then
    let text := toLowerL (l.drop 1)
    { acc with
      additions := acc.additions + 1,
      hasBreakingHint := acc.hasBreakingHint ||
        isInfixL "BREAKING CHANGE".data l || isInfixL "!:".data l,
      featureSignals := acc.featureSignals + countKeywordHits text FEATURE_KEYWORDS,
      fixSignals := acc.fixSignals + countKeywordHits text FIX_KEYWORDS,
      refactorSignals := acc.refactorSignals + countKeywordHits text REFACTOR_KEYWORDS,
      perfSignals := acc.perfSignals + countKeywordHits text PERF_KEYWORDS,
      styleSignals := acc.styleSignals + countKeywordHits text STYLE_KEYWORDS +
        (if isStyleOnlyChange text then 1 else 0) }
  else if minusCond l then
    let text := toLowerL (l.drop 1)
    { acc with
      deletions := acc.deletions + 1,
      hasBreakingHint := acc.hasBreakingHint ||
        isInfixL "BREAKING CHANGE".data l || isInfixL "!:".data l,
      fixSignals := acc.fixSignals + countKeywordHits text FIX_KEYWORDS,
      refactorSignals := acc.refactorSignals + countKeywordHits text REFACTOR_KEYWORDS,
      perfSignals := acc.perfSignals + countKeywordHits text PERF_KEYWORDS,
      styleSignals := acc.styleSignals + countKeywordHits text STYLE_KEYWORDS +
        (if isStyleOnlyChange text then 1 else 0) }
  else acc

/-- The statistics record parseGitDiff returns. -/
structure DiffStats where
  files : List String
  additions : Nat
  deletions : Nat
  hasBreakingHint : Bool
  hasTestFiles : Bool
  hasDocsFiles : Bool
  hasConfigFiles : Bool
  hasCodeFiles : Bool
  addedFiles : Nat
  deletedFiles : Nat
  renamedFiles : Nat
  featureSignals : Nat
  fixSignals : Nat
  refactorSignals : Nat
  perfSignals : Nat
  styleSignals : Nat
deriving DecidableEq

/-- The diff parser: scan the lines of the diff text, then derive the
shape flags from the collected file list (source parseGitDiff). -/
def parseGitDiff (diffText : String) : DiffStats :=
  let acc := (splitLines diffText.data).foldl parseLine initAcc
  { files := acc.files,
    additions := acc.additions,
    deletions := acc.deletions,
    hasBreakingHint := acc.hasBreakingHint,
    hasTestFiles := acc.files.any isTest,
    hasDocsFiles := acc.files.any isDoc,
    hasConfigFiles := acc.files.any isConfig,
    hasCodeFiles := acc.files.any isCode,
    addedFiles := acc.addedFiles,
    deletedFiles := acc.deletedFiles,
    renamedFiles := acc.renamedFiles,
    featureSignals := acc.featureSignals,
    fixSignals := acc.fixSignals,
    refactorSignals := acc.refactorSignals,
    perfSignals := acc.perfSignals,
    styleSignals := acc.styleSignals }

/-- The zero-valued statistics record: empty file list, zero counters,
no flags. -/
def zeroStats : DiffStats :=
  { files := [], additions := 0, deletions := 0, hasBreakingHint := false,
    hasTestFiles := false, hasDocsFiles := false, hasConfigFiles := false,
    hasCodeFiles := false, addedFiles := 0, deletedFiles := 0,
    renamedFiles := 0, featureSignals := 0, fixSignals := 0,
    refactorSignals := 0, perfSignals := 0, styleSignals := 0 }

/-- A line the parse loop reacts to: it starts with one of the recognized
markers or is a counted content line. -/
def recognizedLine (l : List Char) : Bool :=
  diffGitCond l || newFileCond l || deletedFileCond l ||
  renameFromCond l || renameToCond l || plusCond l || minusCond l

/-- The closed set of Conventional Commit type labels. -/
inductive ConventionalType where
  | feat | fix | refactor | docs | test | chore | build | ci | perf | style
deriving DecidableEq

/-- The label text of a commit type. -/
def ctString : ConventionalType → String
  | .feat => "feat"
  | .fix => "fix"
  | .refactor => "refactor"
  | .docs => "docs"
  | .test => "test"
  | .chore => "chore"
  | .build => "build"
  | .ci => "ci"
  | .perf => "perf"
  | .style => "style"

/-- Recover a commit type from its label, none for an unknown label
(the allowed-list check in inferConventionalType). -/
def ctOfString (s : String) : Option ConventionalType :=
  if s = "feat" then some .feat
  else if s = "fix" then some .fix
  else if s = "refactor" then some .refactor
  else if s = "docs" then some .docs
  else if s = "test" then some .test
  else if s = "chore" then some .chore
  else if s = "build" then some .build
  else if s = "ci" then some .ci
  else if s = "perf" then some .perf
  else if s = "style" then some .style
  else none

/-- The fixed enumeration order of the score map in scoreTypes. -/
def allTypes : List ConventionalType :=
  [.feat, .fix, .refactor, .docs, .test, .chore, .build, .ci, .perf, .style]

/-- One ranked commit-type candidate. -/
structure TypeScore where
  type : ConventionalType
  score : Nat
  reason : String
deriving DecidableEq

/-- Total score of feat: feature signals, twice the added files, plus one
when additions exceed deletions (scoreTypes rule 3). -/
def featScore (s : DiffStats) : Nat :=
  s.featureSignals + s.addedFiles * 2 + (if s.deletions < s.additions then 1 else 0)

/-- Base score of fix before the default-guess nudge: fix signals plus one
when deletions exceed additions (scoreTypes rule 4). -/
def fixBase (s : DiffStats) : Nat :=
  s.fixSignals + (if s.additions < s.deletions then 1 else 0)

/-- Total score of fix: the base plus the nudge of rule 9, which fires when
source files are present and both the fix and feat totals are still zero. -/
def fixScore (s : DiffStats) : Nat :=
  fixBase s + (if s.hasCodeFiles && decide (fixBase s = 0) && decide (featScore s = 0) then 1 else 0)

/-- Total score of refactor: signals, a flat bonus when any rename
occurred, and the heavy-deletion bonus of rule 7. -/
def refactorScore (s : DiffStats) : Nat :=
  s.refactorSignals + (if 0 < s.renamedFiles then 3 else 0) +
  (if decide (s.additions * 2 < s.deletions) && s.hasCodeFiles then 2 else 0)

/-- Total score of docs: the all-documentation bonus of rule 2. -/
def docsScore (s : DiffStats) : Nat :=
  if !s.files.isEmpty && s.files.all isDoc then 12 else 0

/-- Total score of test: the all-test bonus of rule 2. -/
def testScore (s : DiffStats) : Nat :=
  if !s.files.isEmpty && s.files.all isTest then 12 else 0

/-- Total score of chore: the empty-file-list bonus of rule 1, the
all-configuration bonus of rule 2 and the metadata-only bonus of rule 10. -/
def choreScore (s : DiffStats) : Nat :=
  (if s.files.isEmpty then 10 else 0) +
  (if !s.files.isEmpty && s.files.all isConfig then 7 else 0) +
  (if !s.hasCodeFiles && !s.hasDocsFiles && !s.hasConfigFiles && !s.hasTestFiles then 2 else 0)

/-- Total score of ci: inside the all-configuration branch, the bonus when
some path mentions the GitHub workflow directory. -/
def ciScore (s : DiffStats) : Nat :=
  if !s.files.isEmpty && s.files.all isConfig &&
     s.files.any (fun f => jsIncludes f ".github/") then 8 else 0

/-- Total score of build: inside the all-configuration branch, the bonus
when some path references a package manifest, lockfile or container file. -/
def buildScore (s : DiffStats) : Nat :=
  if !s.files.isEmpty && s.files.all isConfig &&
     s.files.any (fun f =>
       jsIncludes f "package.json" || jsIncludes f "lock" || jsIncludes f "docker") then 8 else 0

/-- Total score of perf: twice the performance signals (rule 6). -/
def perfScore (s : DiffStats) : Nat := s.perfSignals * 2

/-- Total score of style: the signals plus the bonus of rule 8, whose
threshold compares against additions plus a third of deletions. -/
def styleScore (s : DiffStats) : Nat :=
  s.styleSignals +
  (if decide (max 3 ((s.additions : ℚ) + (s.deletions : ℚ) / 3) < (s.styleSignals : ℚ)) &&
      s.hasCodeFiles then 3 else 0)

/-- The accumulated score of every type after all ten additive rules of
scoreTypes have run. -/
def typeScores (s : DiffStats) : ConventionalType → Nat
  | .feat => featScore s
  | .fix => fixScore s
  | .refactor => refactorScore s
  | .docs => docsScore s
  | .test => testScore s
  | .chore => choreScore s
  | .build => buildScore s
  | .ci => ciScore s
  | .perf => perfScore s
  | .style => styleScore s

/-- The per-type reason text of scoreTypes. -/
def reasonFor (s : DiffStats) : ConventionalType → String
  | .feat => "featureSignals=" ++ toString s.featureSignals ++ ", addedFiles=" ++ toString s.addedFiles
  | .fix => "fixSignals=" ++ toString s.fixSignals ++ ", deletions=" ++ toString s.deletions
  | .refactor => "refactorSignals=" ++ toString s.refactorSignals ++ ", renamedFiles=" ++ toString s.renamedFiles
  | .docs => "hasDocsFiles=" ++ toString s.hasDocsFiles
  | .test => "hasTestFiles=" ++ toString s.hasTestFiles
  | .chore => "hasConfigFiles=" ++ toString s.hasConfigFiles
  | .build => "config/build files detected"
  | .ci => "ci config detected"
  | .perf => "perfSignals=" ++ toString s.perfSignals
  | .style => "styleSignals=" ++ toString s.styleSignals

/-- The candidate list before sorting, in map insertion order. -/
def typeEntries (s : DiffStats) : List TypeScore :=
  allTypes.map (fun t => { type := t, score := typeScores s t, reason := reasonFor s t })

/-- Insert into a descending-sorted list, after every element with an
equal or larger key: the building block of a stable descending sort. -/
def insertDescBy {α β : Type} [LinearOrder β] (key : α → β) (a : α) : List α → List α
  | [] => [a]
  | b :: t => if key b < key a then a :: b :: t else b :: insertDescBy key a t

/-- Stable sort by descending key, the result of the JavaScript stable
Array.prototype.sort with comparator second key minus first key: sorted
descending, ties kept in original order. -/
def sortDescBy {α β : Type} [LinearOrder β] (key : α → β) (l : List α) : List α :=
  l.foldl (fun acc a => insertDescBy key a acc) []

/-- The type scorer: all ten candidates sorted by descending score with
ties kept in enumeration order (the JavaScript sort is stable), truncated
to the top four (source scoreTypes). -/
def scoreTypes (s : DiffStats) : List TypeScore :=
  (sortDescBy TypeScore.score (typeEntries s)).take 4

/-- Clamp a score into the unit interval (source clampToScore; the
isFinite test of the source never fires over exact rationals). -/
def clampToScore (value : ℚ) : ℚ :=
  if value < 0 then 0 else if 1 < value then 1 else value

/-- Rounding to three decimals, the JavaScript Number of toFixed of 3:
every value rounded in the engine is non-negative, where toFixed rounds
half away from zero, which is floor of the shifted value plus one half. -/
def round3 (q : ℚ) : ℚ := ((Int.floor (q * 1000 + 1/2) : ℤ) : ℚ) / 1000

/-- Two-decimal fixed formatting of a non-negative rational, the
JavaScript toFixed of 2 used in the correlation reason text. -/
def toFixed2 (q : ℚ) : String :=
  let n := (Int.floor (q * 100 + 1/2)).toNat
  toString (n / 100) ++ "." ++
    (if n % 100 < 10 then "0" ++ toString (n % 100) else toString (n % 100))

/-- The token set of a text: lower-case, replace every run outside the
kept character class by a space, split on whitespace, keep tokens of
length at least three that are not stop words; a JavaScript Set keeps
first-occurrence order (source toTokenSet). -/
def toTokenSet (value : String) : List String :=
  let norm := (toLowerL value.data).map (fun c => if isTokenChar c then c else ' ')
  let tokens := (splitOnCharL ' ' norm).map (fun t => String.mk (jsTrimL t))
  firstDedup (tokens.filter (fun t => decide (3 ≤ t.length) && !TOKEN_STOPWORDS.contains t))

/-- Jaccard index of two token sets, zero when either is empty
(source jaccard). -/
def jaccard (a b : List String) : ℚ :=
  if a.isEmpty || b.isEmpty then 0
  else
    let intersection := (a.filter (fun t => b.contains t)).length
    let union := a.length + b.length - intersection
    if 0 < union then (intersection : ℚ) / (union : ℚ) else 0

/-- Dice-style file overlap of two path lists over their distinct
elements, zero when either input list is empty; the source function is
named fileOverlapRatio, renamed here only for tooling reasons. -/
def fileOverlapShare (currentFiles previousFiles : List String) : ℚ :=
  if currentFiles.isEmpty || previousFiles.isEmpty then 0
  else
    let current := firstDedup currentFiles
    let previous := firstDedup previousFiles
    let intersection := (current.filter (fun f => previous.contains f)).length
    (2 * intersection : ℚ) / ((current.length : ℚ) + (previous.length : ℚ))

/-- Parse of the Conventional Commit header grammar on an already trimmed
single message, the anchored regex letters, optional parenthesized
nonempty scope, optional bang, colon, mandatory whitespace, nonempty
subject. Every call site of this regex in the source first trims its
argument, which rules out the trailing-whitespace backtracking of the
whitespace-plus group; the dot class excludes line terminators. Returns
the raw captures: type, scope interior, subject. -/
def parseHeader (s : String) : Option (String × String × String) :=
  let cs := s.data
  let ty := cs.takeWhile isAsciiAlpha
  if ty.isEmpty then none
  else
    let r1 := cs.drop ty.length
    let scopeRes : Option (List Char × List Char) :=
      match r1 with
      | '(' :: tl =>
        let inner := tl.takeWhile (fun c => c ≠ ')')
        if inner.isEmpty then none
        else
          match tl.drop inner.length with
          | ')' :: tl2 => some (inner, tl2)
          | _ => none
      | _ => some ([], r1)
    match scopeRes with
    | none => none
    | some (scope, r2) =>
      let r3 := match r2 with
        | '!' :: tl => tl
        | _ => r2
      match r3 with
      | ':' :: r4 =>
        let ws := r4.takeWhile isJsWs
        let subj := r4.drop ws.length
        if ws.isEmpty || subj.isEmpty ||
           subj.any (fun c => c = '\n' || c = '\r') then none
        else some (String.mk ty, String.mk scope, String.mk subj)
      | _ => none

/-- The commit type parsed from a subject line when its lower-cased
header type is one of the ten allowed labels (source
inferConventionalType). -/
def inferConventionalType (subject : String) : Option ConventionalType :=
  match parseHeader (jsTrim subject) with
  | none => none
  | some (t, _, _) => ctOfString (jsLower t)

/-- One recent commit summary handed to the correlation engine. -/
structure RecentCommitContext where
  hash : String
  subject : String
  files : List String
  additions : Nat
  deletions : Nat
deriving DecidableEq

/-- One ranked related commit in the correlation output. -/
structure RelatedRecentCommit where
  hash : String
  subject : String
  score : ℚ
  reason : String
deriving DecidableEq

/-- The full analysis result the correlation engine consumes. -/
structure DiffAnalysis where
  stats : DiffStats
  scopeCandidates : List String
  recommendedTypes : List TypeScore
  subjectHints : List String
deriving DecidableEq

/-- The top-scored candidate type of an analysis, none when the candidate
list is empty (source preferredType). -/
def preferredType (analysis : DiffAnalysis) : Option ConventionalType :=
  analysis.recommendedTypes.head?.map TypeScore.type

/-- The seven noise patterns: anchored merge, release and revert with a
trailing word boundary, anchored chore parenthesized release, and the
version-bump shapes with word boundaries, all case-insensitive (source
NOISE_COMMIT_HINTS, applied to the trimmed subject). -/
def startsWithWordB (cs pat : List Char) : Bool :=
  pat.isPrefixOf cs &&
  (match cs.drop pat.length with
   | [] => true
   | c :: _ => !isWordChar c)

/-- Scan for a pattern occurrence whose start sits on a word boundary:
the flag carries whether the previous character was a word character. -/
def scanBoundary (check : List Char → Bool) : Bool → List Char → Bool
  | prevWord, cs =>
    ((!prevWord) && check cs) ||
    (match cs with
     | [] => false
     | c :: tl => scanBoundary check (isWordChar c) tl)

/-- The pattern ends in a word character, so its trailing boundary needs
a non-word follower or the end of input. -/
def boundaryAfter (pat cs : List Char) : Bool :=
  pat.isPrefixOf cs &&
  (match cs.drop pat.length with
   | [] => true
   | c :: _ => !isWordChar c)

/-- The tail of the bump-number pattern: mandatory whitespace, optional
letter v, a digit. -/
def bumpNumCheck (cs : List Char) : Bool :=
  "bump".data.isPrefixOf cs &&
  (let rest := cs.drop 4
   let ws := rest.takeWhile isJsWs
   !ws.isEmpty &&
   (match rest.drop ws.length with
    | 'v' :: d :: _ => d.isDigit
    | d :: _ => d.isDigit
    | [] => false))

/-- True when a commit subject matches one of the noise patterns (source
isLikelyNoiseCommit). -/
def isLikelyNoiseCommit (subject : String) : Bool :=
  let lower := toLowerL (jsTrimL subject.data)
  startsWithWordB lower "merge".data ||
  startsWithWordB lower "release".data ||
  startsWithWordB lower "revert".data ||
  "chore(release)".data.isPrefixOf lower ||
  scanBoundary (boundaryAfter "version bump".data) false lower ||
  scanBoundary (boundaryAfter "bump version".data) false lower ||
  scanBoundary bumpNumCheck false lower

/-- The token context of the current change: preferred type label, scope
candidates, subject hints and file list joined by spaces (source
buildCurrentContextTokens). -/
def buildCurrentContextTokens (analysis : DiffAnalysis) : List String :=
  let currentType := match preferredType analysis with
    | some t => ctString t
    | none => ""
  toTokenSet (jsJoinSpace (currentType :: (analysis.scopeCandidates ++
    analysis.subjectHints ++ analysis.stats.files)))

/-- The correlation engine: drop noise commits, score the rest by
weighted file overlap, lexical similarity and type match, keep scores at
or above the threshold, sort descending and truncate (source
findRelatedRecentCommits, default threshold 0.65, default cap 3). -/
def findRelatedRecentCommits (analysis : DiffAnalysis)
    (recentCommits : List RecentCommitContext)
    (minCorrelationScore : ℚ := 0.65) (maxRelated : Nat := 3) :
    List RelatedRecentCommit :=
  let currentType := preferredType analysis
  let currentFiles := analysis.stats.files
  let currentTokens := buildCurrentContextTokens analysis
  let related := recentCommits.filterMap (fun commit =>
    if isLikelyNoiseCommit commit.subject then none
    else
      let overlap := fileOverlapShare currentFiles commit.files
      let tokenSimilarity := jaccard currentTokens (toTokenSet commit.subject)
      let ctype := inferConventionalType commit.subject
      let typeMatch : Nat := match currentType with
        | some c => if ctype = some c then 1 else 0
        | none => 0
      let score := clampToScore (overlap * 0.55 + tokenSimilarity * 0.25 +
        (typeMatch : ℚ) * 0.2)
      if score < minCorrelationScore then none
      else some { hash := commit.hash, subject := commit.subject,
                  score := round3 score,
                  reason := "fileOverlap=" ++ toFixed2 overlap ++
                    ", lexicalSimilarity=" ++ toFixed2 tokenSimilarity ++
                    ", typeMatch=" ++ toString typeMatch })
  (sortDescBy RelatedRecentCommit.score related).take maxRelated

/-- A small concrete analysis result used to exercise the correlation
engine on a passing candidate. -/
def exampleAnalysis : DiffAnalysis :=
  { stats := { zeroStats with files := ["src/app.ts"] },
    scopeCandidates := [],
    recommendedTypes := [{ type := ConventionalType.feat, score := 5, reason := "" }],
    subjectHints := [] }

/-- A small concrete recent commit touching the same file with a matching
type, which scores above the default correlation threshold. -/
def exampleCommit : RecentCommitContext :=
  { hash := "abc123", subject := "feat: improve app feature",
    files := ["src/app.ts"], additions := 1, deletions := 1 }

/-- The subject with any Conventional Commit header stripped, or the whole
message when the header grammar does not match; the source function is
named stripConventionalPrefix and is only called on trimmed messages. -/
def stripConventionalSubject (message : String) : String :=
  match parseHeader message with
  | some (_, _, subj) => subj
  | none => message

/-- Canonical subject normalization: trim, drop trailing punctuation,
collapse whitespace, replace every vague-wording hint in table order by
the phrase implementation details (case-insensitive, re-checked after
each replacement on the current text), lower-case the first character
(source normalizeSubject). -/
def normalizeSubject (subject : String) : String :=
  let n1 := collapseWs (stripTrailingPunct (jsTrimL subject.data))
  let n2 := VAGUE_SUBJECT_HINTS.foldl (fun acc v =>
    if isInfixL v.data (toLowerL acc) then
      replaceCI v.data "implementation details".data acc
    else acc) n1
  lowerCaseFirst (String.mk n2)

/-- The most frequent parsed commit type among related subjects, first
reaching the maximum in first-occurrence order, none when no subject
parses (source mostFrequentType, whose Map iterates in insertion order
and replaces the best only on a strictly larger count). -/
def mostFrequentType (subjects : List String) : Option ConventionalType :=
  let ts := subjects.filterMap inferConventionalType
  ((firstDedup ts).foldl (fun best t =>
    if best.2 < ts.count t then (some t, ts.count t) else best)
    ((none : Option ConventionalType), 0)).1

/-- The result record of the tone validator. -/
structure ToneValidation where
  toneScore : ℚ
  violations : List String
  suggestedRewrite : String
  applied : Bool
deriving DecidableEq

/-- The parsed header of the trimmed message. -/
def toneParsed (message : String) : Option (String × String × String) :=
  parseHeader (jsTrim message)

/-- The lower-cased parsed type, empty when the header does not parse. -/
def toneType (message : String) : String :=
  match toneParsed message with
  | some (t, _, _) => jsLower t
  | none => ""

/-- The trimmed parsed scope, empty when absent or unparsed. -/
def toneScope (message : String) : String :=
  match toneParsed message with
  | some (_, sc, _) => jsTrim sc
  | none => ""

/-- The trimmed subject: the parsed subject capture, or the whole trimmed
message when the header does not parse. -/
def toneSubject (message : String) : String :=
  match toneParsed message with
  | some (_, _, su) => jsTrim su
  | none => jsTrim message

/-- Penalty for a message outside the Conventional Commit header grammar. -/
def penaltyParse (message : String) : ℚ :=
  if (toneParsed message).isNone then 0.35 else 0

/-- Penalty for a subject shorter than 8 or longer than 72 characters. -/
def penaltyLength (message : String) : ℚ :=
  if (toneSubject message).length < 8 || 72 < (toneSubject message).length then 0.12 else 0

/-- Penalty for a subject ending in period, exclamation or question mark. -/
def penaltyPunct (message : String) : ℚ :=
  match (toneSubject message).data.getLast? with
  | some c => if c = '.' || c = '!' || c = '?' then 0.08 else 0
  | none => 0

/-- Penalty for vague wording anywhere in the lower-cased subject. -/
def penaltyVague (message : String) : ℚ :=
  if VAGUE_SUBJECT_HINTS.any (fun hint => jsIncludes (jsLower (toneSubject message)) hint)
  then 0.2 else 0

/-- Penalty for a nonempty subject starting with an upper-case letter. -/
def penaltyUpper (message : String) : ℚ :=
  match (toneSubject message).data.head? with
  | some c => if 'A' ≤ c && c ≤ 'Z' then 0.05 else 0
  | none => 0

/-- Penalty for a parsed type diverging from the dominant type of the
related history. -/
def penaltyHistory (message : String) (relatedSubjects : List String) : ℚ :=
  match mostFrequentType relatedSubjects with
  | some d => if toneType message ≠ "" && ctString d ≠ toneType message then 0.15 else 0
  | none => 0

/-- The raw tone score: one minus the six penalties in source order. -/
def toneRawScore (message : String) (relatedSubjects : List String) : ℚ :=
  1 - penaltyParse message - penaltyLength message - penaltyPunct message -
    penaltyVague message - penaltyUpper message - penaltyHistory message relatedSubjects

/-- The published tone score: clamped to the unit interval and rounded to
three decimals. -/
def toneScoreOf (message : String) (relatedSubjects : List String) : ℚ :=
  round3 (clampToScore (toneRawScore message relatedSubjects))

/-- The suggested rewrite: the parsed type and scope around the normalized
subject, or a chore header when the message did not parse. -/
def suggestedRewriteOf (message : String) : String :=
  let normalized := normalizeSubject (stripConventionalSubject (jsTrim message))
  match toneParsed message with
  | some _ =>
    toneType message ++
    (if toneScope message ≠ "" then "(" ++ toneScope message ++ ")" else "") ++
    ": " ++ normalized
  | none => "chore: " ++ normalized

/-- The violation texts in source order. -/
def toneViolations (message : String) (relatedSubjects : List String) : List String :=
  (if (toneParsed message).isNone then ["header is not in Conventional Commit format"] else []) ++
  (if penaltyLength message ≠ 0 then ["subject length should stay between 8 and 72 characters"] else []) ++
  (if penaltyPunct message ≠ 0 then ["subject should not end with punctuation"] else []) ++
  (if penaltyVague message ≠ 0 then ["subject contains vague wording"] else []) ++
  (if penaltyUpper message ≠ 0 then ["subject should start with lowercase verb"] else []) ++
  (match mostFrequentType relatedSubjects with
   | some d =>
     if toneType message ≠ "" && ctString d ≠ toneType message then
       ["type diverges from related history (" ++ ctString d ++ ")"]
     else []
   | none => [])

/-- The tone validator (source validateTone, default threshold 0.8,
default empty related history): the applied flag is the conjunction of
the rounded score falling below the threshold and the rewrite differing
from the trimmed input. -/
def validateTone (message : String) (relatedSubjects : List String := [])
    (minToneScore : ℚ := 0.8) : ToneValidation :=
  { toneScore := toneScoreOf message relatedSubjects,
    violations := toneViolations message relatedSubjects,
    suggestedRewrite := suggestedRewriteOf message,
    applied := decide (toneScoreOf message relatedSubjects < minToneScore) &&
      decide (suggestedRewriteOf message ≠ jsTrim message) }

/-- Two incomparable patterns cannot both be prefixes of one line. -/
theorem patternsExclusive {p q l : List Char} (hp : p.isPrefixOf l = true)
    (hq : q.isPrefixOf l = true) (h1 : p.isPrefixOf q = false)
    (h2 : q.isPrefixOf p = false) : False := by
  have hp' : p <+: l := List.isPrefixOf_iff_prefix.mp hp
  have hq' : q <+: l := List.isPrefixOf_iff_prefix.mp hq
  rcases List.prefix_or_prefix_of_prefix hp' hq' with h | h
  · have hb : p.isPrefixOf q = true := List.isPrefixOf_iff_prefix.mpr h
    rw [hb] at h1
    exact Bool.true_eq_false.mp h1
  · have hb : q.isPrefixOf p = true := List.isPrefixOf_iff_prefix.mpr h
    rw [hb] at h2
    exact Bool.true_eq_false.mp h2

/-- A pattern incomparable with a known prefix of the line is itself no
prefix of the line. -/
theorem patternNotLeading {l pat q : List Char} (h : pat.isPrefixOf l = true)
    (h1 : pat.isPrefixOf q = false) (h2 : q.isPrefixOf pat = false) :
    q.isPrefixOf l = false := by
  cases hq : q.isPrefixOf l with
  | false => rfl
  | true => exact absurd (patternsExclusive h hq h1 h2) not_false

theorem plusCond_of_marker {l pat : List Char} (h : pat.isPrefixOf l = true)
    (h1 : pat.isPrefixOf "+".data = false) (h2 : ("+".data).isPrefixOf pat = false) :
    plusCond l = false := by
  unfold plusCond
  rw [patternNotLeading h h1 h2]
  rfl

theorem minusCond_of_marker {l pat : List Char} (h : pat.isPrefixOf l = true)
    (h1 : pat.isPrefixOf "-".data = false) (h2 : ("-".data).isPrefixOf pat = false) :
    minusCond l = false := by
  unfold minusCond
  rw [patternNotLeading h h1 h2]
  rfl

theorem parseLine_additions (acc : ParseAcc) (l : List Char) :
    (parseLine acc l).additions = acc.additions + (if plusCond l then 1 else 0) := by
  by_cases h1 : diffGitCond l
  · have hpl : plusCond l = false := plusCond_of_marker h1 (by decide) (by decide)
    cases hf : diffGitTarget l <;> simp [parseLine, h1, hpl, hf]
  · by_cases h2 : newFileCond l
    · have hpl : plusCond l = false := plusCond_of_marker h2 (by decide) (by decide)
      simp [parseLine, h1, h2, hpl]
    · by_cases h3 : deletedFileCond l
      · have hpl : plusCond l = false := plusCond_of_marker h3 (by decide) (by decide)
        simp [parseLine, h1, h2, h3, hpl]
      · by_cases h4 : renameFromCond l || renameToCond l
        · have hpl : plusCond l = false := by
            rcases Bool.or_eq_true_iff.mp h4 with h4' | h4'
            · exact plusCond_of_marker h4' (by decide) (by decide)
            · exact plusCond_of_marker h4' (by decide) (by decide)
          simp [parseLine, h1, h2, h3, h4, hpl]
        · by_cases h5 : plusCond l
          · simp [parseLine, h1, h2, h3, h4, h5]
          · by_cases h6 : minusCond l <;>
              simp [parseLine, h1, h2, h3, h4, h5, h6]

theorem parseLine_deletions (acc : ParseAcc) (l : List Char) :
    (parseLine acc l).deletions = acc.deletions + (if minusCond l then 1 else 0) := by
  by_cases h1 : diffGitCond l
  · have hml : minusCond l = false := minusCond_of_marker h1 (by decide) (by decide)
    cases hf : diffGitTarget l <;> simp [parseLine, h1, hml, hf]
  · by_cases h2 : newFileCond l
    · have hml : minusCond l = false := minusCond_of_marker h2 (by decide) (by decide)
      simp [parseLine, h1, h2, hml]
    · by_cases h3 : deletedFileCond l
      · have hml : minusCond l = false := minusCond_of_marker h3 (by decide) (by decide)
        simp [parseLine, h1, h2, h3, hml]
      · by_cases h4 : renameFromCond l || renameToCond l
        · have hml : minusCond l = false := by
            rcases Bool.or_eq_true_iff.mp h4 with h4' | h4'
            · exact minusCond_of_marker h4' (by decide) (by decide)
            · exact minusCond_of_marker h4' (by decide) (by decide)
          simp [parseLine, h1, h2, h3, h4, hml]
        · by_cases h5 : plusCond l
          · have hml : minusCond l = false :=
              minusCond_of_marker (Bool.and_eq_true_iff.mp h5).1 (by decide) (by decide)
            simp [parseLine, h1, h2, h3, h4, h5, hml]
          · by_cases h6 : minusCond l <;>
              simp [parseLine, h1, h2, h3, h4, h5, h6]

theorem parseLine_renamed (acc : ParseAcc) (l : List Char) :
    (parseLine acc l).renamedFiles = acc.renamedFiles +
      (if renameFromCond l then 1 else 0) + (if renameToCond l then 1 else 0) := by
  by_cases h1 : diffGitCond l
  · have hf' : renameFromCond l = false := by
      unfold renameFromCond
      exact patternNotLeading h1 (by decide) (by decide)
    have ht' : renameToCond l = false := by
      unfold renameToCond
      exact patternNotLeading h1 (by decide) (by decide)
    cases hf : diffGitTarget l <;> simp [parseLine, h1, hf, hf', ht']
  · by_cases h2 : newFileCond l
    · have hf' : renameFromCond l = false := by
        unfold renameFromCond
        exact patternNotLeading h2 (by decide) (by decide)
      have ht' : renameToCond l = false := by
        unfold renameToCond
        exact patternNotLeading h2 (by decide) (by decide)
      simp [parseLine, h1, h2, hf', ht']
    · by_cases h3 : deletedFileCond l
      · have hf' : renameFromCond l = false := by
          unfold renameFromCond
          exact patternNotLeading h3 (by decide) (by decide)
        have ht' : renameToCond l = false := by
          unfold renameToCond
          exact patternNotLeading h3 (by decide) (by decide)
        simp [parseLine, h1, h2, h3, hf', ht']
      · by_cases h4 : renameFromCond l || renameToCond l
        · rcases Bool.or_eq_true_iff.mp h4 with h4' | h4'
          · have ht' : renameToCond l = false := by
              unfold renameToCond
              exact @patternNotLeading l ("rename from ".data) _ h4' (by decide) (by decide)
            simp [parseLine, h1, h2, h3, h4, h4', ht']
          · have hf' : renameFromCond l = false := by
              unfold renameFromCond
              exact @patternNotLeading l ("rename to ".data) _ h4' (by decide) (by decide)
            simp [parseLine, h1, h2, h3, h4, h4', hf']
        · have hf' : renameFromCond l = false := by
            cases hx : renameFromCond l
            · rfl
            · exact absurd (Bool.or_eq_true_iff.mpr (Or.inl hx)) h4
          have ht' : renameToCond l = false := by
            cases hx : renameToCond l
            · rfl
            · exact absurd (Bool.or_eq_true_iff.mpr (Or.inr hx)) h4
          by_cases h5 : plusCond l
          · simp [parseLine, h1, h2, h3, h4, h5, hf', ht']
          · by_cases h6 : minusCond l <;>
              simp [parseLine, h1, h2, h3, h4, h5, h6, hf', ht']

theorem parseLine_breaking (acc : ParseAcc) (l : List Char) :
    (parseLine acc l).hasBreakingHint = (acc.hasBreakingHint ||
      ((plusCond l || minusCond l) &&
        (isInfixL "BREAKING CHANGE".data l || isInfixL "!:".data l))) := by
  by_cases h1 : diffGitCond l
  · have hpl : plusCond l = false := plusCond_of_marker h1 (by decide) (by decide)
    have hml : minusCond l = false := minusCond_of_marker h1 (by decide) (by decide)
    cases hf : diffGitTarget l <;> simp [parseLine, h1, hpl, hml, hf]
  · by_cases h2 : newFileCond l
    · have hpl : plusCond l = false := plusCond_of_marker h2 (by decide) (by decide)
      have hml : minusCond l = false := minusCond_of_marker h2 (by decide) (by decide)
      simp [parseLine, h1, h2, hpl, hml]
    · by_cases h3 : deletedFileCond l
      · have hpl : plusCond l = false := plusCond_of_marker h3 (by decide) (by decide)
        have hml : minusCond l = false := minusCond_of_marker h3 (by decide) (by decide)
        simp [parseLine, h1, h2, h3, hpl, hml]
      · by_cases h4 : renameFromCond l || renameToCond l
        · have hpl : plusCond l = false := by
            rcases Bool.or_eq_true_iff.mp h4 with h4' | h4'
            · exact plusCond_of_marker h4' (by decide) (by decide)
            · exact plusCond_of_marker h4' (by decide) (by decide)
          have hml : minusCond l = false := by
            rcases Bool.or_eq_true_iff.mp h4 with h4' | h4'
            · exact minusCond_of_marker h4' (by decide) (by decide)
            · exact minusCond_of_marker h4' (by decide) (by decide)
          simp [parseLine, h1, h2, h3, h4, hpl, hml]
        · by_cases h5 : plusCond l
          · simp [parseLine, h1, h2, h3, h4, h5, Bool.or_assoc]
          · by_cases h6 : minusCond l <;>
              simp [parseLine, h1, h2, h3, h4, h5, h6, Bool.or_assoc]

theorem parseLine_inert (acc : ParseAcc) (l : List Char)
    (h : recognizedLine l = false) : parseLine acc l = acc := by
  unfold recognizedLine at h
  simp only [Bool.or_eq_false_iff] at h
  obtain ⟨⟨⟨⟨⟨⟨hc1, hc2⟩, hc3⟩, hc4⟩, hc5⟩, hc6⟩, hc7⟩ := h
  simp [parseLine, hc1, hc2, hc3, hc4, hc5, hc6, hc7]

theorem foldl_additions : ∀ (ls : List (List Char)) (acc : ParseAcc),
    (ls.foldl parseLine acc).additions = acc.additions + ls.countP plusCond := by
  intro ls
  induction ls with
  | nil => intro acc; simp
  | cons l ls ih =>
    intro acc
    rw [List.foldl_cons, ih, parseLine_additions, List.countP_cons]
    by_cases h : plusCond l <;> (simp [h]; try omega)

theorem foldl_deletions : ∀ (ls : List (List Char)) (acc : ParseAcc),
    (ls.foldl parseLine acc).deletions = acc.deletions + ls.countP minusCond := by
  intro ls
  induction ls with
  | nil => intro acc; simp
  | cons l ls ih =>
    intro acc
    rw [List.foldl_cons, ih, parseLine_deletions, List.countP_cons]
    by_cases h : minusCond l <;> (simp [h]; try omega)

theorem foldl_renamed : ∀ (ls : List (List Char)) (acc : ParseAcc),
    (ls.foldl parseLine acc).renamedFiles = acc.renamedFiles +
      ls.countP renameFromCond + ls.countP renameToCond := by
  intro ls
  induction ls with
  | nil => intro acc; simp
  | cons l ls ih =>
    intro acc
    rw [List.foldl_cons, ih, parseLine_renamed, List.countP_cons, List.countP_cons]
    by_cases hf : renameFromCond l <;> by_cases ht : renameToCond l <;>
      simp [hf, ht] <;> omega

theorem foldl_breaking : ∀ (ls : List (List Char)) (acc : ParseAcc),
    (ls.foldl parseLine acc).hasBreakingHint = (acc.hasBreakingHint ||
      ls.any (fun l => (plusCond l || minusCond l) &&
        (isInfixL "BREAKING CHANGE".data l || isInfixL "!:".data l))) := by
  intro ls
  induction ls with
  | nil => intro acc; simp
  | cons l ls ih =>
    intro acc
    rw [List.foldl_cons, ih, parseLine_breaking, List.any_cons, Bool.or_assoc]

theorem foldl_inert : ∀ (ls : List (List Char)) (acc : ParseAcc),
    (∀ l ∈ ls, recognizedLine l = false) → ls.foldl parseLine acc = acc := by
  intro ls
  induction ls with
  | nil => intro acc _; rfl
  | cons l ls ih =>
    intro acc h
    rw [List.foldl_cons, parseLine_inert acc l (h l (List.mem_cons_self l ls))]
    exact ih acc (fun x hx => h x (List.mem_cons_of_mem l hx))

/-- Claim C1: for every diff text, the additions and deletions counters of
parseGitDiff sum to exactly the number of input lines that start with plus
but not the plus file marker plus the number of lines that start with
minus but not the minus file marker. -/
theorem parseGitDiff_changed_line_count (d : String) :
    (parseGitDiff d).additions + (parseGitDiff d).deletions =
      (splitLines d.data).countP plusCond + (splitLines d.data).countP minusCond := by
  have ha := foldl_additions (splitLines d.data) initAcc
  have hd := foldl_deletions (splitLines d.data) initAcc
  have h0 : initAcc.additions = 0 := rfl
  have h1 : initAcc.deletions = 0 := rfl
  simp only [parseGitDiff]
  omega

/-- Claim C9: the rename counter of parseGitDiff counts the rename-from
lines and the rename-to lines independently, so one rename pair yields the
value two. -/
theorem parseGitDiff_renamed_double_count (d : String) :
    (parseGitDiff d).renamedFiles =
      (splitLines d.data).countP renameFromCond +
      (splitLines d.data).countP renameToCond ∧
    ((splitLines d.data).countP renameFromCond = 1 →
     (splitLines d.data).countP renameToCond = 1 →
     (parseGitDiff d).renamedFiles = 2) := by
  have h := foldl_renamed (splitLines d.data) initAcc
  have h0 : initAcc.renamedFiles = 0 := rfl
  constructor
  · simp only [parseGitDiff]
    omega
  · intro h1 h2
    simp only [parseGitDiff]
    omega

/-- Witness for claim C9 at a diff with exactly one rename pair. -/
theorem parseGitDiff_renamed_double_count_witness :
    (parseGitDiff "rename from a.txt\nrename to b.txt").renamedFiles = 2 :=
  (parseGitDiff_renamed_double_count "rename from a.txt\nrename to b.txt").2
    (by decide) (by decide)

/-- Claim C7 (amended): the breaking-change flag of parseGitDiff is true
exactly when some added or removed content line contains, in its raw
uncased text, the case-sensitive literal BREAKING CHANGE or the
bang-colon token; once any such line occurs the flag stays true. The
source checks the raw line, not the lower-cased body. -/
theorem parseGitDiff_breaking_iff (d : String) :
    (parseGitDiff d).hasBreakingHint =
      (splitLines d.data).any (fun l => (plusCond l || minusCond l) &&
        (isInfixL "BREAKING CHANGE".data l || isInfixL "!:".data l)) := by
  have h := foldl_breaking (splitLines d.data) initAcc
  have h0 : initAcc.hasBreakingHint = false := rfl
  simp only [parseGitDiff]
  rw [h, h0, Bool.false_or]

/-- Counterexample to claim C7 as stated: an added line whose lower-cased
body contains the breaking-change marker, yet the parser leaves the flag
false, because the source scans the raw line case-sensitively. -/
theorem parseGitDiff_breaking_lowercase_cex :
    plusCond "+this is a breaking change".data = true ∧
    isInfixL "breaking change".data
      (toLowerL ("+this is a breaking change".data.drop 1)) = true ∧
    (parseGitDiff "+this is a breaking change").hasBreakingHint = false := by
  refine ⟨by decide, by decide, by decide⟩

/-- Claim C8 (amended): parseGitDiff is total by construction, and every
input none of whose lines starts with a recognized marker or counts as a
content line, the empty input included, yields the zero-valued record. -/
theorem parseGitDiff_no_marker_zero (d : String)
    (h : ∀ l ∈ splitLines d.data, recognizedLine l = false) :
    parseGitDiff d = zeroStats := by
  simp only [parseGitDiff, foldl_inert (splitLines d.data) initAcc h]
  rfl

/-- Witness for the amended claim C8 at the empty input. -/
theorem parseGitDiff_no_marker_zero_witness : parseGitDiff "" = zeroStats :=
  parseGitDiff_no_marker_zero "" (by decide)

/-- Counterexample to claim C8 as stated: the input plus-x is not a
well-formed diff, it has no file header at all, yet the parser counts its
single line as an addition instead of returning the zero record. -/
theorem parseGitDiff_malformed_cex :
    parseGitDiff "+x" ≠ zeroStats ∧ (parseGitDiff "+x").additions = 1 := by
  refine ⟨by decide, by decide⟩

theorem mem_insertDescBy {α β : Type} [LinearOrder β] (key : α → β) (a x : α) :
    ∀ (l : List α), x ∈ insertDescBy key a l ↔ x = a ∨ x ∈ l := by
  intro l
  induction l with
  | nil => simp [insertDescBy]
  | cons b t ih =>
    simp only [insertDescBy]
    split_ifs with h
    · simp [List.mem_cons]
    · simp only [List.mem_cons, ih]
      tauto

theorem mem_sortDescBy_aux {α β : Type} [LinearOrder β] (key : α → β) (x : α) :
    ∀ (l acc : List α),
      (x ∈ l.foldl (fun acc a => insertDescBy key a acc) acc ↔ x ∈ acc ∨ x ∈ l) := by
  intro l
  induction l with
  | nil => intro acc; simp
  | cons a t ih =>
    intro acc
    rw [List.foldl_cons, ih, mem_insertDescBy]
    simp only [List.mem_cons]
    tauto

theorem mem_sortDescBy {α β : Type} [LinearOrder β] (key : α → β) (x : α)
    (l : List α) : x ∈ sortDescBy key l ↔ x ∈ l := by
  rw [sortDescBy, mem_sortDescBy_aux]
  simp

theorem pairwise_insertDescBy {α β : Type} [LinearOrder β] (key : α → β) (a : α) :
    ∀ {l : List α}, l.Pairwise (fun p q => key q ≤ key p) →
      (insertDescBy key a l).Pairwise (fun p q => key q ≤ key p) := by
  intro l
  induction l with
  | nil => intro _; simp [insertDescBy]
  | cons b t ih =>
    intro hp
    rcases List.pairwise_cons.mp hp with ⟨hb, ht⟩
    simp only [insertDescBy]
    split_ifs with h
    · refine List.pairwise_cons.mpr ⟨?_, hp⟩
      intro x hx
      rcases List.mem_cons.mp hx with rfl | hx
      · exact le_of_lt h
      · exact le_trans (hb x hx) (le_of_lt h)
    · refine List.pairwise_cons.mpr ⟨?_, ih ht⟩
      intro x hx
      rcases (mem_insertDescBy key a x t).mp hx with rfl | hx
      · exact le_of_not_lt h
      · exact hb x hx

theorem pairwise_sortDescBy_aux {α β : Type} [LinearOrder β] (key : α → β) :
    ∀ (l acc : List α), acc.Pairwise (fun p q => key q ≤ key p) →
      (l.foldl (fun acc a => insertDescBy key a acc) acc).Pairwise
        (fun p q => key q ≤ key p) := by
  intro l
  induction l with
  | nil => intro acc h; exact h
  | cons a t ih =>
    intro acc h
    rw [List.foldl_cons]
    exact ih _ (pairwise_insertDescBy key a h)

theorem pairwise_sortDescBy {α β : Type} [LinearOrder β] (key : α → β)
    (l : List α) :
    (sortDescBy key l).Pairwise (fun p q => key q ≤ key p) :=
  pairwise_sortDescBy_aux key l [] (List.Pairwise.nil)

/-- When one element strictly dominates every other element by key, it is
the head of the descending sort. -/
theorem sortDescBy_head_unique_max {α β : Type} [LinearOrder β] (key : α → β)
    (l : List α) (a : α) (ha : a ∈ l)
    (hmax : ∀ x ∈ l, x ≠ a → key x < key a) :
    (sortDescBy key l).head? = some a := by
  have hmem : a ∈ sortDescBy key l := (mem_sortDescBy key a l).mpr ha
  have hpw := pairwise_sortDescBy key l
  cases hs : sortDescBy key l with
  | nil => rw [hs] at hmem; exact absurd hmem (List.not_mem_nil a)
  | cons e tl =>
    rw [hs] at hmem hpw
    rcases List.pairwise_cons.mp hpw with ⟨hbound, _⟩
    by_cases hea : e = a
    · rw [hea]
      rfl
    · have hel : e ∈ l := by
        have : e ∈ sortDescBy key l := by rw [hs]; exact List.mem_cons_self e tl
        exact (mem_sortDescBy key e l).mp this
      have hlt : key e < key a := hmax e hel hea
      rcases List.mem_cons.mp hmem with rfl | hmem'
      · exact absurd rfl hea
      · exact absurd (hbound a hmem') (not_le_of_lt hlt)

/-- The head of the type scorer output is the type whose accumulated score
strictly dominates every other type. -/
theorem scoreTypes_head_of_max (s : DiffStats) (t : ConventionalType)
    (h : ∀ u : ConventionalType, u ≠ t → typeScores s u < typeScores s t) :
    (scoreTypes s).head?.map TypeScore.type = some t := by
  have htl : t ∈ allTypes := by cases t <;> simp [allTypes]
  have hmem : ({ type := t, score := typeScores s t, reason := reasonFor s t } : TypeScore)
      ∈ typeEntries s := List.mem_map.mpr ⟨t, htl, rfl⟩
  have hmax : ∀ x ∈ typeEntries s,
      x ≠ ({ type := t, score := typeScores s t, reason := reasonFor s t } : TypeScore) →
      TypeScore.score x < TypeScore.score
        ({ type := t, score := typeScores s t, reason := reasonFor s t } : TypeScore) := by
    intro x hx hne
    rcases List.mem_map.mp hx with ⟨u, _, rfl⟩
    have hut : u ≠ t := by
      intro he
      subst he
      exact hne rfl
    exact h u hut
  have hhead := sortDescBy_head_unique_max TypeScore.score (typeEntries s) _ hmem hmax
  cases hs : sortDescBy TypeScore.score (typeEntries s) with
  | nil => rw [hs] at hhead; exact absurd hhead (by simp)
  | cons e tl =>
    rw [hs] at hhead
    have he : e = { type := t, score := typeScores s t, reason := reasonFor s t } := by
      simpa using hhead
    simp [scoreTypes, hs, List.take, he]

/-- Counterexample to claim C2 as stated: a statistics record with an
empty file list but a large feature-signal counter puts feat, not chore,
at the top of the scorer output, so the claim fails when quantified over
all signal values. -/
theorem scoreTypes_top_empty_files_cex :
    ({ zeroStats with featureSignals := 13 } : DiffStats).files = [] ∧
    (scoreTypes { zeroStats with featureSignals := 13 }).head?.map TypeScore.type ≠
      some ConventionalType.chore := by
  refine ⟨rfl, by with_unfolding_all decide⟩

/-- Claim C2 (amended): for every statistics record with an empty file
list whose five signal counters, added-file counter and rename counter
are all zero, the top-ranked candidate of the type scorer is chore. -/
theorem scoreTypes_top_chore_of_empty_quiet (s : DiffStats)
    (hf : s.files = []) (h1 : s.featureSignals = 0) (h2 : s.fixSignals = 0)
    (h3 : s.refactorSignals = 0) (h4 : s.perfSignals = 0) (h5 : s.styleSignals = 0)
    (h6 : s.addedFiles = 0) (h7 : s.renamedFiles = 0) :
    (scoreTypes s).head?.map TypeScore.type = some ConventionalType.chore := by
  have hch : 10 ≤ choreScore s := by
    simp only [choreScore, hf, List.isEmpty_nil]
    split_ifs <;> omega
  have hstyle : styleScore s = 0 := by
    simp only [styleScore, h5, Nat.cast_zero]
    have hc : ¬ (max (3 : ℚ) ((s.additions : ℚ) + (s.deletions : ℚ) / 3) < 0) := by
      have h3q := le_max_left (3 : ℚ) ((s.additions : ℚ) + (s.deletions : ℚ) / 3)
      intro hcon
      linarith
    simp [hc]
  apply scoreTypes_head_of_max
  intro u hu
  cases u with
  | feat =>
    simp only [typeScores, featScore, h1, h6]
    split_ifs <;> omega
  | fix =>
    simp only [typeScores, fixScore, fixBase, h2]
    split_ifs <;> omega
  | refactor =>
    simp only [typeScores, refactorScore, h3, h7]
    split_ifs <;> omega
  | docs =>
    simp only [typeScores, docsScore, hf, List.isEmpty_nil]
    simp only [Bool.not_true, Bool.false_and, Bool.false_eq_true, if_false]
    omega
  | test =>
    simp only [typeScores, testScore, hf, List.isEmpty_nil]
    simp only [Bool.not_true, Bool.false_and, Bool.false_eq_true, if_false]
    omega
  | chore => exact absurd rfl hu
  | build =>
    simp only [typeScores, buildScore, hf, List.isEmpty_nil]
    simp only [Bool.not_true, Bool.false_and, Bool.false_eq_true, if_false]
    omega
  | ci =>
    simp only [typeScores, ciScore, hf, List.isEmpty_nil]
    simp only [Bool.not_true, Bool.false_and, Bool.false_eq_true, if_false]
    omega
  | perf =>
    simp only [typeScores, perfScore, h4]
    omega
  | style =>
    simp only [typeScores, hstyle]
    omega

/-- Witness for the amended claim C2 at the all-zero statistics record. -/
theorem scoreTypes_top_chore_of_empty_quiet_witness :
    (scoreTypes zeroStats).head?.map TypeScore.type = some ConventionalType.chore :=
  scoreTypes_top_chore_of_empty_quiet zeroStats rfl rfl rfl rfl rfl rfl rfl rfl

/-- Counterexample to claim C3 as stated: the single file test.md is a
documentation file by extension yet also a test file by name, so docs and
test both receive the same one-rule bonus of twelve and docs is not
strictly higher. -/
theorem scoreTypes_docs_not_above_test_cex :
    ({ zeroStats with files := ["test.md"] } : DiffStats).files.all isDoc = true ∧
    ¬ (typeScores { zeroStats with files := ["test.md"] } ConventionalType.test <
       typeScores { zeroStats with files := ["test.md"] } ConventionalType.docs) := by
  refine ⟨by with_unfolding_all decide, by with_unfolding_all decide⟩

/-- Claim C3 (amended): for every statistics record with a nonempty file
list in which every file is a documentation file, no file is a test file
and the style-signal counter is zero, docs scores strictly higher than
test and strictly higher than style. -/
theorem scoreTypes_docs_above_test_style (s : DiffStats)
    (hne : s.files ≠ []) (hdoc : s.files.all isDoc = true)
    (hnt : s.files.all (fun f => !isTest f) = true) (h5 : s.styleSignals = 0) :
    typeScores s ConventionalType.test < typeScores s ConventionalType.docs ∧
    typeScores s ConventionalType.style < typeScores s ConventionalType.docs := by
  have hemp : s.files.isEmpty = false := by
    cases hfe : s.files.isEmpty
    · rfl
    · exact absurd (List.isEmpty_iff.mp hfe) hne
  have hdocs : typeScores s ConventionalType.docs = 12 := by
    simp [typeScores, docsScore, hemp, hdoc]
  have htest : typeScores s ConventionalType.test = 0 := by
    have hall : s.files.all isTest = false := by
      cases hfl : s.files with
      | nil => exact absurd hfl hne
      | cons f rest =>
        rw [hfl] at hnt
        rw [List.all_cons, Bool.and_eq_true] at hnt
        obtain ⟨hhd, _⟩ := hnt
        cases hx : (f :: rest).all isTest
        · rfl
        · rw [List.all_cons, Bool.and_eq_true] at hx
          obtain ⟨hhd2, _⟩ := hx
          rw [hhd2] at hhd
          exact absurd hhd (by simp)
    simp [typeScores, testScore, hall]
  have hstyle : typeScores s ConventionalType.style = 0 := by
    simp only [typeScores, styleScore, h5, Nat.cast_zero]
    have hc : ¬ (max (3 : ℚ) ((s.additions : ℚ) + (s.deletions : ℚ) / 3) < 0) := by
      have h3q := le_max_left (3 : ℚ) ((s.additions : ℚ) + (s.deletions : ℚ) / 3)
      intro hcon
      linarith
    simp [hc]
  rw [hdocs, htest, hstyle]
  omega

/-- Witness for the amended claim C3 at a pure documentation change. -/
theorem scoreTypes_docs_above_test_style_witness :
    typeScores { zeroStats with files := ["README.md"] } ConventionalType.test <
      typeScores { zeroStats with files := ["README.md"] } ConventionalType.docs ∧
    typeScores { zeroStats with files := ["README.md"] } ConventionalType.style <
      typeScores { zeroStats with files := ["README.md"] } ConventionalType.docs :=
  scoreTypes_docs_above_test_style { zeroStats with files := ["README.md"] }
    (by decide) (by decide) (by decide) rfl

/-- Claim C4: the applied flag of the tone validator implies that the
rounded tone score lies strictly below the threshold and that the
suggested rewrite differs from the trimmed input message. -/
theorem validateTone_applied_only_if (message : String)
    (relatedSubjects : List String) (minToneScore : ℚ)
    (h : (validateTone message relatedSubjects minToneScore).applied = true) :
    (validateTone message relatedSubjects minToneScore).toneScore < minToneScore ∧
    (validateTone message relatedSubjects minToneScore).suggestedRewrite ≠ jsTrim message := by
  simp only [validateTone] at h ⊢
  rw [Bool.and_eq_true, decide_eq_true_iff, decide_eq_true_iff] at h
  exact h

/-- Witness for claim C4 at a message that triggers the rewrite. -/
theorem validateTone_applied_only_if_witness :
    (validateTone "Fix stuff." [] 0.8).toneScore < 0.8 ∧
    (validateTone "Fix stuff." [] 0.8).suggestedRewrite ≠ jsTrim "Fix stuff." :=
  validateTone_applied_only_if "Fix stuff." [] 0.8 (by with_unfolding_all decide)

/-- Claim C6: no commit whose subject matches a noise pattern ever
appears in the correlation output, no matter the threshold or cap. -/
theorem findRelated_no_noise (analysis : DiffAnalysis)
    (recentCommits : List RecentCommitContext) (minScore : ℚ) (maxRelated : Nat)
    (r : RelatedRecentCommit)
    (hr : r ∈ findRelatedRecentCommits analysis recentCommits minScore maxRelated) :
    isLikelyNoiseCommit r.subject = false := by
  simp only [findRelatedRecentCommits] at hr
  have hr2 := List.mem_of_mem_take hr
  have hr3 := (mem_sortDescBy _ _ _).mp hr2
  rcases List.mem_filterMap.mp hr3 with ⟨c, _, hfc⟩
  by_cases hn : isLikelyNoiseCommit c.subject
  · rw [if_pos hn] at hfc
    cases hfc
  · rw [if_neg hn] at hfc
    split at hfc
    · cases hfc
    · cases hfc
      simpa using hn

/-- Witness for claim C6: a correlation run whose single candidate passes
the threshold, and whose output head is accordingly not a noise commit. -/
theorem findRelated_no_noise_witness :
    isLikelyNoiseCommit
      ((findRelatedRecentCommits exampleAnalysis [exampleCommit] 0.65 3).headD
        { hash := "", subject := "", score := 0, reason := "" }).subject = false :=
  findRelated_no_noise exampleAnalysis [exampleCommit] 0.65 3
    ((findRelatedRecentCommits exampleAnalysis [exampleCommit] 0.65 3).headD
      { hash := "", subject := "", score := 0, reason := "" })
    (by with_unfolding_all decide)

/-- Claim C10: the file-overlap component of correlation depends only on
the distinct paths of each list: removing duplicate entries from either
argument, keeping first occurrences, leaves the value unchanged. -/
theorem fileOverlapShare_dedup_invariant (a b : List String) :
    fileOverlapShare (firstDedup a) b = fileOverlapShare a b ∧
    fileOverlapShare a (firstDedup b) = fileOverlapShare a b := by
  have hemp : ∀ (l : List String), (firstDedup l).isEmpty = l.isEmpty := by
    intro l
    cases l <;> rfl
  constructor <;> simp only [fileOverlapShare, hemp, firstDedup_idem]

/-- Counterexample to claim C5 as stated: with a feat-dominant history,
the message fix colon abcdefg bang scores 0.77 and gets applied, but its
rewrite drops the trailing bang, leaving a seven-character subject whose
length penalty makes the second pass score 0.73, strictly lower. -/
theorem validateTone_rewrite_score_drop_cex :
    (validateTone "fix: abcdefg!" ["feat: add login page", "feat: add search box"] 0.8).applied = true ∧
    (validateTone
        (validateTone "fix: abcdefg!" ["feat: add login page", "feat: add search box"] 0.8).suggestedRewrite
        ["feat: add login page", "feat: add search box"] 0.8).toneScore <
      (validateTone "fix: abcdefg!" ["feat: add login page", "feat: add search box"] 0.8).toneScore := by
  refine ⟨by with_unfolding_all decide, by with_unfolding_all decide⟩

theorem penaltyParse_nonneg (m : String) : 0 ≤ penaltyParse m := by
  unfold penaltyParse
  split_ifs <;> norm_num

theorem penaltyLength_nonneg (m : String) : 0 ≤ penaltyLength m := by
  unfold penaltyLength
  split_ifs <;> norm_num

theorem penaltyPunct_nonneg (m : String) : 0 ≤ penaltyPunct m := by
  unfold penaltyPunct
  cases (toneSubject m).data.getLast? with
  | none => norm_num
  | some c =>
    simp only []
    split_ifs <;> norm_num

theorem penaltyVague_nonneg (m : String) : 0 ≤ penaltyVague m := by
  unfold penaltyVague
  split_ifs <;> norm_num

theorem penaltyUpper_nonneg (m : String) : 0 ≤ penaltyUpper m := by
  unfold penaltyUpper
  cases (toneSubject m).data.head? with
  | none => norm_num
  | some c =>
    simp only []
    split_ifs <;> norm_num

theorem penaltyHistory_nonneg (m : String) (rs : List String) :
    0 ≤ penaltyHistory m rs := by
  unfold penaltyHistory
  cases mostFrequentType rs with
  | none => norm_num
  | some d =>
    simp only []
    split_ifs <;> norm_num

theorem clampToScore_mono {x y : ℚ} (h : x ≤ y) :
    clampToScore x ≤ clampToScore y := by
  unfold clampToScore
  split_ifs <;> linarith

theorem round3_mono {x y : ℚ} (h : x ≤ y) : round3 x ≤ round3 y := by
  unfold round3
  have hf := Int.floor_mono (show x * 1000 + 1/2 ≤ y * 1000 + 1/2 by linarith)
  have hc : ((Int.floor (x * 1000 + 1/2) : ℤ) : ℚ) ≤
      ((Int.floor (y * 1000 + 1/2) : ℤ) : ℚ) := by exact_mod_cast hf
  linarith

theorem toneParsed_isSome_of_type_ne (m : String) (h : toneType m ≠ "") :
    (toneParsed m).isSome = true := by
  unfold toneType at h
  cases hp : toneParsed m with
  | none => rw [hp] at h; exact absurd rfl h
  | some v => simp

/-- Claim C5 (amended): re-running the tone validator on its own
suggested rewrite, with the same related subjects and threshold, yields a
tone score at least as high as the first, provided the rewrite parses to
the same type as the original message and its subject re-triggers none of
the length, trailing-punctuation, vague-wording or capitalization
violations: the only penalty then left on the second pass is the history
divergence, which both passes share. -/
theorem validateTone_rewrite_no_regress (message : String)
    (relatedSubjects : List String) (minToneScore : ℚ)
    (_happlied : (validateTone message relatedSubjects minToneScore).applied = true)
    (htype : toneType ((validateTone message relatedSubjects minToneScore).suggestedRewrite) =
      toneType message)
    (htype0 : toneType message ≠ "")
    (hlen : penaltyLength ((validateTone message relatedSubjects minToneScore).suggestedRewrite) = 0)
    (hpunct : penaltyPunct ((validateTone message relatedSubjects minToneScore).suggestedRewrite) = 0)
    (hvague : penaltyVague ((validateTone message relatedSubjects minToneScore).suggestedRewrite) = 0)
    (hupper : penaltyUpper ((validateTone message relatedSubjects minToneScore).suggestedRewrite) = 0) :
    (validateTone message relatedSubjects minToneScore).toneScore ≤
    (validateTone ((validateTone message relatedSubjects minToneScore).suggestedRewrite)
       relatedSubjects minToneScore).toneScore := by
  simp only [validateTone] at htype hlen hpunct hvague hupper ⊢
  have hparse2 : penaltyParse (suggestedRewriteOf message) = 0 := by
    unfold penaltyParse
    have hs := toneParsed_isSome_of_type_ne (suggestedRewriteOf message)
      (by rw [htype]; exact htype0)
    cases hp : toneParsed (suggestedRewriteOf message) with
    | none => rw [hp] at hs; exact absurd hs (by simp)
    | some v => simp
  have hhist : penaltyHistory (suggestedRewriteOf message) relatedSubjects =
      penaltyHistory message relatedSubjects := by
    unfold penaltyHistory
    rw [htype]
  have hraw2 : toneRawScore (suggestedRewriteOf message) relatedSubjects =
      1 - penaltyHistory message relatedSubjects := by
    unfold toneRawScore
    rw [hparse2, hlen, hpunct, hvague, hupper, hhist]
    ring
  have hraw1 : toneRawScore message relatedSubjects ≤
      1 - penaltyHistory message relatedSubjects := by
    unfold toneRawScore
    have n1 := penaltyParse_nonneg message
    have n2 := penaltyLength_nonneg message
    have n3 := penaltyPunct_nonneg message
    have n4 := penaltyVague_nonneg message
    have n5 := penaltyUpper_nonneg message
    linarith
  unfold toneScoreOf
  exact round3_mono (clampToScore_mono (by rw [hraw2]; exact hraw1))

/-- Witness for the amended claim C5 at a message whose rewrite repairs a
vague, punctuated, capitalized subject without introducing new
violations. -/
theorem validateTone_rewrite_no_regress_witness :
    (validateTone "fix: Update stuff here ok." [] 0.8).toneScore ≤
    (validateTone ((validateTone "fix: Update stuff here ok." [] 0.8).suggestedRewrite)
       [] 0.8).toneScore :=
  validateTone_rewrite_no_regress "fix: Update stuff here ok." [] 0.8
    (by with_unfolding_all decide) (by with_unfolding_all decide)
    (by with_unfolding_all decide) (by with_unfolding_all decide)
    (by with_unfolding_all decide) (by with_unfolding_all decide)
    (by with_unfolding_all decide)
